import Mathlib

/-!
Shallow embedding of the capsules build-step caching core
(`src/capsule/src/iohashing.rs` and `src/src/config.rs`).

Rust byte buffers (`Vec<u8>`, file contents) are `List Nat` with entries
below 256; Rust `String`/`&str` values are Lean `String`s, converted to
their UTF-8 bytes where the code hashes or compares them.  The SHA-256
primitive of the `sha2` crate is implemented concretely below over
`List Nat`, with 32-bit words as `Nat` reduced `% 2^32`, and is validated
against the digests hard-coded in the repository's own tests.
-/

set_option maxRecDepth 100000

set_option maxHeartbeats 1000000

/-- Reduce a natural number to a 32-bit word, as Rust `u32` arithmetic does. -/
def w32 (n : Nat) : Nat := n % 4294967296

/-- 32-bit right rotation. -/
def rotr (n x : Nat) : Nat := w32 ((x >>> n) ||| (x <<< (32 - n)))

/-- SHA-256 big sigma 0. -/
def bigSigma0 (x : Nat) : Nat := (rotr 2 x) ^^^ (rotr 13 x) ^^^ (rotr 22 x)

/-- SHA-256 big sigma 1. -/
def bigSigma1 (x : Nat) : Nat := (rotr 6 x) ^^^ (rotr 11 x) ^^^ (rotr 25 x)

/-- SHA-256 small sigma 0. -/
def smallSigma0 (x : Nat) : Nat := (rotr 7 x) ^^^ (rotr 18 x) ^^^ (x >>> 3)

/-- SHA-256 small sigma 1. -/
def smallSigma1 (x : Nat) : Nat := (rotr 17 x) ^^^ (rotr 19 x) ^^^ (x >>> 10)

/-- SHA-256 choice function; bitwise complement on 32-bit words is xor with the all-ones word. -/
def sha256Ch (x y z : Nat) : Nat := (x &&& y) ^^^ ((x ^^^ 4294967295) &&& z)

/-- SHA-256 majority function. -/
def sha256Maj (x y z : Nat) : Nat := (x &&& y) ^^^ (x &&& z) ^^^ (y &&& z)

/-- The 64 SHA-256 round constants of FIPS 180-4, written in decimal. -/
def sha256K : List Nat :=
  [1116352408, 1899447441, 3049323471, 3921009573, 961987163, 1508970993,
   2453635748, 2870763221, 3624381080, 310598401, 607225278, 1426881987,
   1925078388, 2162078206, 2614888103, 3248222580, 3835390401, 4022224774,
   264347078, 604807628, 770255983, 1249150122, 1555081692, 1996064986,
   2554220882, 2821834349, 2952996808, 3210313671, 3336571891, 3584528711,
   113926993, 338241895, 666307205, 773529912, 1294757372, 1396182291,
   1695183700, 1986661051, 2177026350, 2456956037, 2730485921, 2820302411,
   3259730800, 3345764771, 3516065817, 3600352804, 4094571909, 275423344,
   430227734, 506948616, 659060556, 883997877, 958139571, 1322822218,
   1537002063, 1747873779, 1955562222, 2024104815, 2227730452, 2361852424,
   2428436474, 2756734187, 3204031479, 3329325298]

/-- Working state of the SHA-256 compression function: eight 32-bit words. -/
structure Sha256State where
  a : Nat
  b : Nat
  c : Nat
  d : Nat
  e : Nat
  f : Nat
  g : Nat
  h : Nat

/-- The SHA-256 initial hash value. -/
def sha256Init : Sha256State :=
  ⟨1779033703, 3144134277, 1013904242, 2773480762,
   1359893119, 2600822924, 528734635, 1541459225⟩

/-- One step of the message-schedule extension; the list holds the schedule
words produced so far, most recent first. -/
def sha256ScheduleStep (ws : List Nat) : List Nat :=
  w32 (smallSigma1 (ws.getD 1 0) + ws.getD 6 0 + smallSigma0 (ws.getD 14 0) + ws.getD 15 0) :: ws

/-- Iterate the schedule extension `n` times. -/
def sha256Extend : Nat → List Nat → List Nat
  | 0, ws => ws
  | n + 1, ws => sha256Extend n (sha256ScheduleStep ws)

/-- The 64-word message schedule of a 16-word block. -/
def sha256Schedule (block : List Nat) : List Nat :=
  (sha256Extend 48 block.reverse).reverse

/-- One SHA-256 compression round, consuming one (round constant, schedule word) pair. -/
def sha256Round (st : Sha256State) (kw : Nat × Nat) : Sha256State :=
  let t1 := w32 (st.h + bigSigma1 st.e + sha256Ch st.e st.f st.g + kw.1 + kw.2)
  let t2 := w32 (bigSigma0 st.a + sha256Maj st.a st.b st.c)
  ⟨w32 (t1 + t2), st.a, st.b, st.c, w32 (st.d + t1), st.e, st.f, st.g⟩

/-- The SHA-256 compression function on one 16-word block. -/
def sha256Compress (st : Sha256State) (block : List Nat) : Sha256State :=
  let fin := (sha256K.zip (sha256Schedule block)).foldl sha256Round st
  ⟨w32 (st.a + fin.a), w32 (st.b + fin.b), w32 (st.c + fin.c), w32 (st.d + fin.d),
   w32 (st.e + fin.e), w32 (st.f + fin.f), w32 (st.g + fin.g), w32 (st.h + fin.h)⟩

/-- SHA-256 padding: append the 0x80 byte, zeros up to 56 mod 64, and the
big-endian 64-bit bit length. -/
def sha256Pad (msg : List Nat) : List Nat :=
  let L := msg.length
  let z := (119 - L % 64) % 64
  let bits := L * 8
  msg ++ [128] ++ List.replicate z 0 ++
    [bits / 72057594037927936 % 256, bits / 281474976710656 % 256,
     bits / 1099511627776 % 256, bits / 4294967296 % 256,
     bits / 16777216 % 256, bits / 65536 % 256, bits / 256 % 256, bits % 256]

/-- Group four big-endian bytes into one 32-bit word, across a whole list. -/
def bytesToWords : List Nat → List Nat
  | a :: b :: c :: d :: rest => (((a * 256 + b) * 256 + c) * 256 + d) :: bytesToWords rest
  | _ => []

/-- Split a padded byte list into 64-byte blocks of 16 words each; `cur` holds
the bytes of the current block, most recent first. -/
def sha256BlocksGo (cur : List Nat) : List Nat → List (List Nat)
  | [] => []
  | b :: rest =>
    if cur.length == 63 then bytesToWords (b :: cur).reverse :: sha256BlocksGo [] rest
    else sha256BlocksGo (b :: cur) rest

/-- All 16-word blocks of a padded message. -/
def sha256Blocks (msg : List Nat) : List (List Nat) := sha256BlocksGo [] msg

/-- The four big-endian bytes of a 32-bit word. -/
def wordBytes (w : Nat) : List Nat :=
  [w / 16777216 % 256, w / 65536 % 256, w / 256 % 256, w % 256]

/-- SHA-256 of a byte list, as 32 digest bytes. -/
def sha256 (msg : List Nat) : List Nat :=
  let st := (sha256Blocks (sha256Pad msg)).foldl sha256Compress sha256Init
  wordBytes st.a ++ wordBytes st.b ++ wordBytes st.c ++ wordBytes st.d ++
  wordBytes st.e ++ wordBytes st.f ++ wordBytes st.g ++ wordBytes st.h

/-- Lowercase hex digit of a value below 16. -/
def hexChar (n : Nat) : Char := if n < 10 then Char.ofNat (48 + n) else Char.ofNat (87 + n)

/-- Two lowercase hex digits of a byte. -/
def hexByte (b : Nat) : List Char := [hexChar (b / 16), hexChar (b % 16)]

/-- Lowercase hex string of a byte list, as Rust's `{:x}` formatting of a digest. -/
def toHex (bs : List Nat) : String := ⟨bs.flatMap hexByte⟩

/-- UTF-8 encoding of one character, as Rust's `str::as_bytes` exposes it. -/
def encodeChar (c : Char) : List Nat :=
  let n := c.toNat
  if n < 128 then [n]
  else if n < 2048 then [192 + n / 64, 128 + n % 64]
  else if n < 65536 then [224 + n / 4096, 128 + n / 64 % 64, 128 + n % 64]
  else [240 + n / 262144, 128 + n / 4096 % 64, 128 + n / 64 % 64, 128 + n % 64]

/-- The UTF-8 bytes of a string. -/
def strBytes (s : String) : List Nat := s.data.flatMap encodeChar

/-- Lexicographic comparison of byte lists, as Rust's `Ord` on `String` compares
the underlying UTF-8 bytes. -/
def bytesCmp : List Nat → List Nat → Ordering
  | [], [] => Ordering.eq
  | [], _ :: _ => Ordering.lt
  | _ :: _, [] => Ordering.gt
  | a :: as, b :: bs =>
    if a < b then Ordering.lt else if b < a then Ordering.gt else bytesCmp as bs

/-- Rust `String::cmp`: lexicographic on the UTF-8 bytes. -/
def strCmp (a b : String) : Ordering := bytesCmp (strBytes a) (strBytes b)

/-- The file system seen by hashing: contents of the file at each resolved
path, `none` when the file cannot be opened or read. -/
def FS : Type := String → Option (List Nat)

/-- Modelled from the spec: the Workspace Path Resolver (`WorkspacePath::to_path`,
whose source is not under `src/`) maps a logical path to an absolute path given
an optional root, prefixing the root when one is supplied. -/
def resolve (root : Option String) (p : String) : String :=
  match root with
  | some r => r ++ "/" ++ p
  | none => p

/-- `file_hash` of `iohashing.rs`: the hex SHA-256 digest of the file's whole
content, `none` when the file cannot be read. -/
def file_hash (fs : FS) (filename : String) : Option String :=
  (fs filename).map (fun content => toHex (sha256 content))

/-- `string_hash` of `iohashing.rs`: hex SHA-256 of a string's UTF-8 bytes. -/
def string_hash (s : String) : String := toHex (sha256 (strBytes s))

/-- `bytes_hash` of `iohashing.rs`: hex SHA-256 of a raw byte buffer. -/
def bytes_hash (s : List Nat) : String := toHex (sha256 s)

/-- `bundle_hash` of `iohashing.rs`: SHA-256 of the concatenation of each
entry's tag label and digest string, in the order given. -/
def bundle_hash (hash_details : List (String × String)) : String :=
  toHex (sha256 (hash_details.flatMap (fun p => strBytes p.1 ++ strBytes p.2)))

/-- The `Input` enum: a tool tag or an input file. -/
inductive Input where
  | ToolTag (s : String)
  | File (filename : String)
deriving DecidableEq

/-- The `InputSet` struct: the inputs in insertion order. -/
structure InputSet where
  inputs : List Input

/-- The `FileOutput` struct. -/
structure FileOutput where
  filename : String
  present : Bool
  mode : Nat
deriving DecidableEq

/-- The `Output` enum. -/
inductive Output where
  | File (fo : FileOutput)
  | ExitCode (code : Int)
  | Stdout (buffer : List Nat)
  | Stderr (buffer : List Nat)
deriving DecidableEq

/-- The `OutputSet` struct: the outputs in insertion order. -/
structure OutputSet where
  outputs : List Output

/-- The `InputHashBundle` struct. -/
structure InputHashBundle where
  hash : String
  hash_details : List (Input × String)
deriving DecidableEq

/-- The `OutputHashBundle` struct. -/
structure OutputHashBundle where
  hash : String
  hash_details : List (Output × String)
deriving DecidableEq

/-- The loop body of `OutputHashBundle::result_code`: scan `hash_details` for
the first `ExitCode` entry. -/
def resultCodeGo : List (Output × String) → Option Int
  | [] => none
  | (Output.ExitCode code, _) :: _ => some code
  | _ :: rest => resultCodeGo rest

/-- `OutputHashBundle::result_code`. -/
def OutputHashBundle.result_code (b : OutputHashBundle) : Option Int :=
  resultCodeGo b.hash_details

/-- One step of Rust's insertion sort (`shift_tail`): the freshly appended
element floats left past every element it is `lt`-below.  The list holds the
already sorted prefix in reverse, its rightmost element first. -/
def shiftIn (lt : α → α → Bool) (x : α) : List α → List α
  | [] => [x]
  | z :: zs => if lt x z then z :: shiftIn lt x zs else x :: z :: zs

/-- The insertion-sort fold: the accumulator is the sorted prefix in reverse. -/
def sortFold (lt : α → α → Bool) (l : List α) : List α :=
  l.foldl (fun acc x => shiftIn lt x acc) []

/-- Rust `slice::sort_by` as the standard library's stable insertion sort,
which the standard sort runs on short slices and which agrees with any stable
sort whenever the comparator is a total order. -/
def rustSortBy (cmp : α → α → Ordering) (l : List α) : List α :=
  (sortFold (fun a b => cmp a b == Ordering.lt) l).reverse

/-- The comparator passed to `sort_by` in `InputSet::hash_bundle`, verbatim:
when the first entry is a `File` it compares digests even against a `ToolTag`. -/
def inputCmp (a b : Input × String) : Ordering :=
  match a.1 with
  | Input.ToolTag _ =>
    match b.1 with
    | Input.ToolTag _ => strCmp a.2 b.2
    | Input.File _ => Ordering.lt
  | Input.File _ => strCmp a.2 b.2

/-- The comparator passed to `sort_by` in `OutputSet::hash_bundle`: by digest. -/
def outputCmp (a b : Output × String) : Ordering := strCmp a.2 b.2

/-- The per-item digest of one `Input` in `InputSet::hash_bundle`. -/
def input_item_hash (fs : FS) (root : Option String) : Input → Option String
  | Input.File filename => file_hash fs (resolve root filename)
  | Input.ToolTag s => some (string_hash s)

/-- The tag label fed to `bundle_hash` for an `Input`. -/
def inputTag : Input → String
  | Input.File _ => "File"
  | Input.ToolTag _ => "ToolTag"

/-- The `for input in self.inputs` loop of the two `hash_bundle` methods: pair
each item with its digest in insertion order, propagating the first failure as
the `?` operator does. -/
def collectDetails {ι : Type} (g : ι → Option String) : List ι → Option (List (ι × String))
  | [] => some []
  | i :: rest =>
    match g i with
    | none => none
    | some h => (collectDetails g rest).map (fun ds => (i, h) :: ds)

/-- `InputSet::hash_bundle`: per-item digests in insertion order, the `sort_by`
with the comparator above, then the bundle hash over tag labels and digests. -/
def InputSet.hash_bundle (fs : FS) (root : Option String) (s : InputSet) :
    Option InputHashBundle :=
  match collectDetails (input_item_hash fs root) s.inputs with
  | none => none
  | some details =>
    let sorted := rustSortBy inputCmp details
    some ⟨bundle_hash (sorted.map (fun p => (inputTag p.1, p.2))), sorted⟩

/-- `InputSet::hash`: the bundle's top-level hash. -/
def InputSet.hash (fs : FS) (root : Option String) (s : InputSet) : Option String :=
  (s.hash_bundle fs root).map InputHashBundle.hash

/-- The per-item digest of one `Output` in `OutputSet::hash_bundle`; an absent
file gets the literal `""` with no file read. -/
def output_item_hash (fs : FS) (root : Option String) : Output → Option String
  | Output.File fo =>
    if fo.present then file_hash fs (resolve root fo.filename) else some ""
  | Output.ExitCode code => some (string_hash (toString code))
  | Output.Stdout buffer => some (bytes_hash buffer)
  | Output.Stderr buffer => some (bytes_hash buffer)

/-- The tag label fed to `bundle_hash` for an `Output`. -/
def outputTag : Output → String
  | Output.File _ => "File"
  | Output.ExitCode _ => "ExitCode"
  | Output.Stdout _ => "StdOut"
  | Output.Stderr _ => "StdErr"

/-- `OutputSet::hash_bundle`. -/
def OutputSet.hash_bundle (fs : FS) (root : Option String) (s : OutputSet) :
    Option OutputHashBundle :=
  match collectDetails (output_item_hash fs root) s.outputs with
  | none => none
  | some details =>
    let sorted := rustSortBy outputCmp details
    some ⟨bundle_hash (sorted.map (fun p => (outputTag p.1, p.2))), sorted⟩

/-- `OutputSet::hash`: the bundle's top-level hash. -/
def OutputSet.hash (fs : FS) (root : Option String) (s : OutputSet) : Option String :=
  (s.hash_bundle fs root).map OutputHashBundle.hash

/-- The `Milestone` enum of `config.rs`, spelling kept from the source. -/
inductive Milestone where
  | Placebo
  | BluePill
  | OragePill
  | RedPill
deriving DecidableEq

/-- The `Config` struct of `config.rs` (`OsString` values as strings). -/
structure Config where
  milestone : Milestone
  capsule_id : Option String
  input_files : List String
  tool_tags : List String
  output_files : List String
  capture_stdout : Bool
  capture_stderr : Bool
deriving DecidableEq

/-- The `Default` impl for `Config`. -/
def Config.defaultConfig : Config :=
  ⟨Milestone.Placebo, none, [], [], [], false, false⟩

/-- One parsed argument source (the command line or the `CAPSULE_ARGS`
environment string), holding exactly the values `Config::new` queries of a
clap match object: the optional `capsule_id`, the occurrence lists of
`input`/`tool`/`output`, and the two capture flags. -/
structure ArgMatches where
  capsule_id : Option String
  input_list : List String
  tool_list : List String
  output_list : List String
  stdout_flag : Bool
  stderr_flag : Bool
deriving DecidableEq

/-- The first `for matches in &match_sources` loop body of `Config::new`:
overwrite `capsule_id` when this source supplies one. -/
def applyCapsuleId (c : Config) (m : ArgMatches) : Config :=
  match m.capsule_id with
  | some cid => { c with capsule_id := some cid }
  | none => c

/-- The implied-capsule-id step of `Config::new`: when no source set an id,
a single-entry `Capsules.toml` supplies it, anything else is fatal. -/
def resolveCapsuleId (c : Config) (dir_config : List (String × Config)) :
    Except String Config :=
  if c.capsule_id.isNone then
    match dir_config with
    | [entry] => Except.ok { c with capsule_id := some entry.1 }
    | _ => Except.error "Cannot determine capsule_id"
  else
    Except.ok c

/-- The second `for matches in match_sources` loop body of `Config::new`:
extend the three lists and latch the two capture flags. -/
def applyLists (c : Config) (m : ArgMatches) : Config :=
  { c with
    input_files := c.input_files ++ m.input_list,
    tool_tags := c.tool_tags ++ m.tool_list,
    output_files := c.output_files ++ m.output_list,
    capture_stdout := c.capture_stdout || m.stdout_flag,
    capture_stderr := c.capture_stderr || m.stderr_flag }

/-- `Config::new`, with the file reads and clap parsing replaced by explicit
parameters carrying their results.  `homeFile`: `none` when `HOME` is unset or
`~/.capsules.toml` unreadable, `some none` when it is present but unparsable,
`some (some c)` when parsed.  `dirFile` likewise for `Capsules.toml`, whose
parse result is the map of capsule ids to configs.  `cmd` and `envArgs` are
the two parsed argument sources, in the array order the code builds
(`get_matches()` first, the `CAPSULE_ARGS` matches second). -/
def Config.new (homeFile : Option (Option Config))
    (dirFile : Option (Option (List (String × Config))))
    (cmd envArgs : ArgMatches) : Except String Config :=
  let config0 :=
    match homeFile with
    | some (some home_config) => home_config
    | _ => Config.defaultConfig
  match dirFile with
  | some none => Except.error "Could not parse Capsules.toml"
  | _ =>
    let dir_config : List (String × Config) :=
      match dirFile with
      | some (some m) => m
      | _ => []
    let config1 := applyCapsuleId (applyCapsuleId config0 cmd) envArgs
    (resolveCapsuleId config1 dir_config).map
      (fun config2 => applyLists (applyLists config2 cmd) envArgs)

/-! ### Basic lemmas about the embedding -/

theorem shiftIn_perm (lt : α → α → Bool) (x : α) (l : List α) :
    (shiftIn lt x l).Perm (x :: l) := by
  induction l with
  | nil => simp [shiftIn]
  | cons z zs ih =>
    by_cases h : lt x z
    · simp only [shiftIn, if_pos h]
      exact (ih.cons z).trans (List.Perm.swap x z zs)
    · simp [shiftIn, h]

theorem sortFold_aux_perm (lt : α → α → Bool) :
    ∀ (l acc : List α), (l.foldl (fun acc x => shiftIn lt x acc) acc).Perm (acc ++ l) := by
  intro l
  induction l with
  | nil => intro acc; simp
  | cons x xs ih =>
    intro acc
    simp only [List.foldl_cons]
    refine (ih (shiftIn lt x acc)).trans ?_
    refine (List.Perm.append_right xs (shiftIn_perm lt x acc)).trans ?_
    exact List.perm_middle.symm

theorem rustSortBy_perm (cmp : α → α → Ordering) (l : List α) :
    (rustSortBy cmp l).Perm l := by
  unfold rustSortBy sortFold
  refine (List.reverse_perm _).trans ?_
  simpa using sortFold_aux_perm (fun a b => cmp a b == Ordering.lt) l []

theorem rustSortBy_mem (cmp : α → α → Ordering) (l : List α) (x : α) :
    x ∈ rustSortBy cmp l ↔ x ∈ l :=
  (rustSortBy_perm cmp l).mem_iff

theorem collectDetails_eq {ι : Type} (g : ι → Option String) :
    ∀ (l : List ι) (r : List (ι × String)),
      collectDetails g l = some r → ∀ p ∈ r, g p.1 = some p.2 := by
  intro l
  induction l with
  | nil =>
    intro r hr p hp
    simp only [collectDetails, Option.some.injEq] at hr
    subst hr
    simp at hp
  | cons x xs ih =>
    intro r hr p hp
    unfold collectDetails at hr
    cases hgx : g x with
    | none => rw [hgx] at hr; exact absurd hr (by simp)
    | some h =>
      rw [hgx] at hr
      cases hxs : collectDetails g xs with
      | none => rw [hxs] at hr; exact absurd hr (by simp)
      | some rs =>
        rw [hxs] at hr
        simp only [Option.map_some', Option.some.injEq] at hr
        subst hr
        rcases List.mem_cons.mp hp with hph | hpt
        · subst hph; exact hgx
        · exact ih rs hxs p hpt

theorem sha256_length (msg : List Nat) : (sha256 msg).length = 32 := by
  simp [sha256, wordBytes]

theorem flatMap_hexByte_length :
    ∀ (bs : List Nat), (bs.flatMap hexByte).length = 2 * bs.length := by
  intro bs
  induction bs with
  | nil => rfl
  | cons b rest ih =>
    simp only [List.flatMap_cons, List.length_append, ih, hexByte,
      List.length_cons, List.length_nil]
    omega

theorem toHex_length (bs : List Nat) : (toHex bs).length = 2 * bs.length :=
  flatMap_hexByte_length bs

theorem bytes_hash_length (b : List Nat) : (bytes_hash b).length = 64 := by
  unfold bytes_hash
  rw [toHex_length, sha256_length]

theorem file_hash_length (fs : FS) (p : String) (d : String)
    (h : file_hash fs p = some d) : d.length = 64 := by
  unfold file_hash at h
  rcases Option.map_eq_some'.mp h with ⟨content, _, rfl⟩
  rw [toHex_length, sha256_length]

theorem input_hash_details_spec (fs : FS) (root : Option String) (s : InputSet)
    (b : InputHashBundle) (hb : InputSet.hash_bundle fs root s = some b) :
    ∀ p ∈ b.hash_details, input_item_hash fs root p.1 = some p.2 := by
  unfold InputSet.hash_bundle at hb
  cases hm : collectDetails (input_item_hash fs root) s.inputs with
  | none => rw [hm] at hb; exact absurd hb (by simp)
  | some details =>
    rw [hm] at hb
    intro p hp
    cases hb
    exact collectDetails_eq (input_item_hash fs root) s.inputs details hm p
      ((rustSortBy_mem inputCmp details p).mp hp)

/-- The part of an input hash-detail entry that the comparator and the bundle
hash actually consume: the tag label and the digest string. -/
def labelOf (p : Input × String) : String × String := (inputTag p.1, p.2)

/-- The input comparator expressed on tag labels and digests only. -/
def labelCmp (a b : String × String) : Ordering :=
  if a.1 == "ToolTag" then
    (if b.1 == "ToolTag" then strCmp a.2 b.2 else Ordering.lt)
  else strCmp a.2 b.2

theorem inputCmp_factors (a b : Input × String) :
    inputCmp a b = labelCmp (labelOf a) (labelOf b) := by
  rcases a with ⟨ia, ha⟩
  rcases b with ⟨ib, hb⟩
  cases ia <;> cases ib <;> rfl

theorem inputCmp_eq_proj :
    inputCmp = fun a b => labelCmp (labelOf a) (labelOf b) := by
  funext a b
  exact inputCmp_factors a b

theorem shiftIn_map_proj {α β : Type} (proj : α → β) (f : β → β → Bool) :
    ∀ (x x' : α) (l l' : List α), proj x = proj x' → l.map proj = l'.map proj →
      (shiftIn (fun a b => f (proj a) (proj b)) x l).map proj =
      (shiftIn (fun a b => f (proj a) (proj b)) x' l').map proj := by
  intro x x' l
  induction l generalizing x x' with
  | nil =>
    intro l' hx hl
    cases l' with
    | nil => simp [shiftIn, hx]
    | cons z' zs' => exact absurd hl.symm (by simp)
  | cons z zs ih =>
    intro l' hx hl
    cases l' with
    | nil => exact absurd hl (by simp)
    | cons z' zs' =>
      simp only [List.map_cons, List.cons.injEq] at hl
      obtain ⟨hz, hzs⟩ := hl
      simp only [shiftIn, hx, hz]
      by_cases hc : f (proj x') (proj z')
      · simp only [hc, if_true, List.map_cons, hz]
        exact congrArg _ (ih x x' zs' hx hzs)
      · simp [hc, hx, hz, hzs]

theorem sortFold_map_proj {α β : Type} (proj : α → β) (f : β → β → Bool) :
    ∀ (l l' acc acc' : List α), acc.map proj = acc'.map proj →
      l.map proj = l'.map proj →
      (l.foldl (fun acc x => shiftIn (fun a b => f (proj a) (proj b)) x acc) acc).map proj =
      (l'.foldl (fun acc x => shiftIn (fun a b => f (proj a) (proj b)) x acc) acc').map proj := by
  intro l
  induction l with
  | nil =>
    intro l' acc acc' hacc hl
    cases l' with
    | nil => simpa using hacc
    | cons z' zs' => exact absurd hl.symm (by simp)
  | cons x xs ih =>
    intro l' acc acc' hacc hl
    cases l' with
    | nil => exact absurd hl (by simp)
    | cons x' xs' =>
      simp only [List.map_cons, List.cons.injEq] at hl
      obtain ⟨hx, hxs⟩ := hl
      simp only [List.foldl_cons]
      exact ih xs' _ _ (shiftIn_map_proj proj f x x' acc acc' hx hacc) hxs

theorem rustSortBy_map_proj {α β : Type} (proj : α → β) (cmpb : β → β → Ordering)
    (l l' : List α) (h : l.map proj = l'.map proj) :
    (rustSortBy (fun a b => cmpb (proj a) (proj b)) l).map proj =
    (rustSortBy (fun a b => cmpb (proj a) (proj b)) l').map proj := by
  unfold rustSortBy sortFold
  rw [List.map_reverse, List.map_reverse,
    sortFold_map_proj proj (fun a b => cmpb a b == Ordering.lt) l l' [] [] rfl h]

theorem collectDetails_map_labelOf (fs fs' : FS) (root root' : Option String)
    (l l' : List Input)
    (hrel : List.Forall₂ (fun i i' => inputTag i = inputTag i' ∧
      input_item_hash fs root i = input_item_hash fs' root' i') l l') :
    (collectDetails (input_item_hash fs root) l).map (List.map labelOf) =
    (collectDetails (input_item_hash fs' root') l').map (List.map labelOf) := by
  induction hrel with
  | nil => rfl
  | @cons x x' xs xs' hxy htail ih =>
    obtain ⟨htag, hhash⟩ := hxy
    unfold collectDetails
    rw [← hhash]
    cases hx : input_item_hash fs root x with
    | none => rfl
    | some h =>
      cases ht : collectDetails (input_item_hash fs root) xs with
      | none =>
        cases ht' : collectDetails (input_item_hash fs' root') xs' with
        | none => rfl
        | some ds' => rw [ht, ht'] at ih; exact absurd ih (by simp)
      | some ds =>
        cases ht' : collectDetails (input_item_hash fs' root') xs' with
        | none => rw [ht, ht'] at ih; exact absurd ih (by simp)
        | some ds' =>
          rw [ht, ht'] at ih
          simp only [Option.map_some', Option.some.injEq] at ih
          simp only [Option.map_some', Option.some.injEq, List.map_cons, ih]
          unfold labelOf
          rw [htag]

theorem resultCodeGo_some :
    ∀ (l : List (Output × String)) (c : Int) (h : String),
      (Output.ExitCode c, h) ∈ l →
      (∀ (c' : Int) (h' : String), (Output.ExitCode c', h') ∈ l → c' = c) →
      resultCodeGo l = some c := by
  intro l
  induction l with
  | nil => intro c h hm _; simp at hm
  | cons p rest ih =>
    intro c h hm huniq
    rcases p with ⟨o, hs⟩
    cases o with
    | ExitCode c0 =>
      have : c0 = c := huniq c0 hs (List.mem_cons_self _ _)
      simp [resultCodeGo, this]
    | File fo =>
      have hm' : (Output.ExitCode c, h) ∈ rest := by
        rcases List.mem_cons.mp hm with heq | ht
        · exact absurd (congrArg Prod.fst heq) (by simp)
        · exact ht
      exact ih c h hm' (fun c' h' hmem => huniq c' h' (List.mem_cons_of_mem _ hmem))
    | Stdout b =>
      have hm' : (Output.ExitCode c, h) ∈ rest := by
        rcases List.mem_cons.mp hm with heq | ht
        · exact absurd (congrArg Prod.fst heq) (by simp)
        · exact ht
      exact ih c h hm' (fun c' h' hmem => huniq c' h' (List.mem_cons_of_mem _ hmem))
    | Stderr b =>
      have hm' : (Output.ExitCode c, h) ∈ rest := by
        rcases List.mem_cons.mp hm with heq | ht
        · exact absurd (congrArg Prod.fst heq) (by simp)
        · exact ht
      exact ih c h hm' (fun c' h' hmem => huniq c' h' (List.mem_cons_of_mem _ hmem))

theorem resultCodeGo_none :
    ∀ (l : List (Output × String)),
      (∀ p ∈ l, ∀ c : Int, p.1 ≠ Output.ExitCode c) →
      resultCodeGo l = none := by
  intro l
  induction l with
  | nil => intro _; rfl
  | cons p rest ih =>
    intro hno
    rcases p with ⟨o, hs⟩
    cases o with
    | ExitCode c0 => exact absurd rfl (hno (Output.ExitCode c0, hs) (List.mem_cons_self _ _) c0)
    | File fo => exact ih (fun q hq => hno q (List.mem_cons_of_mem _ hq))
    | Stdout b => exact ih (fun q hq => hno q (List.mem_cons_of_mem _ hq))
    | Stderr b => exact ih (fun q hq => hno q (List.mem_cons_of_mem _ hq))

theorem output_hash_details_spec (fs : FS) (root : Option String) (s : OutputSet)
    (b : OutputHashBundle) (hb : OutputSet.hash_bundle fs root s = some b) :
    ∀ p ∈ b.hash_details, output_item_hash fs root p.1 = some p.2 := by
  unfold OutputSet.hash_bundle at hb
  cases hm : collectDetails (output_item_hash fs root) s.outputs with
  | none => rw [hm] at hb; exact absurd hb (by simp)
  | some details =>
    rw [hm] at hb
    intro p hp
    cases hb
    exact collectDetails_eq (output_item_hash fs root) s.outputs details hm p
      ((rustSortBy_mem outputCmp details p).mp hp)

/-- Shared fact behind C3 and C4: every `File` entry with `present = false` in
a bundle produced by `OutputSet::hash_bundle` carries the literal empty string
as its digest, for every file system. -/
theorem absent_file_digest_empty (fs : FS) (root : Option String) (s : OutputSet)
    (b : OutputHashBundle) (hb : OutputSet.hash_bundle fs root s = some b)
    (fo : FileOutput) (d : String)
    (hm : (Output.File fo, d) ∈ b.hash_details) (hp : fo.present = false) :
    d = "" := by
  have h := output_hash_details_spec fs root s b hb _ hm
  simp only [output_item_hash, hp, Bool.false_eq_true, if_false,
    Option.some.injEq] at h
  exact h.symm

/-- Every `File` entry with `present = true` in a bundle produced by
`OutputSet::hash_bundle` carries a 64-character hex digest. -/
theorem present_file_digest_length (fs : FS) (root : Option String) (s : OutputSet)
    (b : OutputHashBundle) (hb : OutputSet.hash_bundle fs root s = some b)
    (fo : FileOutput) (d : String)
    (hm : (Output.File fo, d) ∈ b.hash_details) (hp : fo.present = true) :
    d.length = 64 := by
  have h := output_hash_details_spec fs root s b hb _ hm
  simp only [output_item_hash, hp, if_true] at h
  exact file_hash_length _ _ _ h

theorem flatMap_map_pair (l : List (Input × String)) :
    (l.map (fun p => (inputTag p.1, p.2))).flatMap
        (fun q => strBytes q.1 ++ strBytes q.2) =
      l.flatMap (fun p => strBytes (inputTag p.1) ++ strBytes p.2) := by
  induction l with
  | nil => rfl
  | cons p r ih => simp only [List.map_cons, List.flatMap_cons, ih]

theorem resolveCapsuleId_of_some (c : Config) (v : String)
    (dir : List (String × Config)) (h : c.capsule_id = some v) :
    resolveCapsuleId c dir = Except.ok c := by
  unfold resolveCapsuleId
  rw [h]
  rfl

/-! ### Validation of the embedding against the repository's own test vectors -/

/-- `test_input_set_file` of `iohashing.rs`: a sole input file containing
`file1` reproduces the digest hard-coded in the repository's test, and adding
a second file containing `file2` reproduces the second hard-coded digest. -/
theorem repo_test_vectors :
    InputSet.hash (fun p => if p == "f1" then some (strBytes "file1") else none) none
        ⟨[Input.File "f1"]⟩ =
      some "f409e4c7ae76997e69556daae6139bee1f02e4f618d3da8deea10bb35b6c0ebd" ∧
    InputSet.hash
        (fun p => if p == "f1" then some (strBytes "file1")
          else if p == "f2" then some (strBytes "file2") else none) none
        ⟨[Input.File "f1", Input.File "f2"]⟩ =
      some "a282f3da61a4bc322a8d31da6d30a0e924017962acbef2f6996b81709de8cdc3" := by
  constructor
  · decide
  · decide

/-! ### The claims -/

/-- C1: the claim states that every insertion order of a fixed multiset of
inputs produces an identical `InputHashBundle.hash`.  The code violates it:
with the tool tag `some tool_tag` and one file whose content digest sorts
below the tag digest, the two insertion orders of the same two inputs hash to
different top-level values, because the `sort_by` comparator compares a `File`
against a `ToolTag` by digest instead of ordering it after, so the sort result
depends on the initial order.  The code's own comment says the hash is
calculated independently of the order, so this is a code bug. -/
theorem claim_C1_code_bug_eval :
    InputSet.hash (fun p => if p == "f" then some (strBytes "file2") else none) none
        ⟨[Input.ToolTag "some tool_tag", Input.File "f"]⟩ ≠
      InputSet.hash (fun p => if p == "f" then some (strBytes "file2") else none) none
        ⟨[Input.File "f", Input.ToolTag "some tool_tag"]⟩ := by
  decide

/-- C2: the claim states that in `hash_details` every `ToolTag` entry precedes
every `File` entry.  The code violates it: inserting the tool tag
`some tool_tag` and then a file whose content digest sorts below the tag
digest yields `hash_details` with the `File` entry first, because the
comparator returns the digest comparison instead of `Greater` when a `File`
is compared against a `ToolTag`.  The comment above the sort says tool tags
come first, so this is a code bug. -/
theorem claim_C2_code_bug_eval :
    (InputSet.hash_bundle (fun p => if p == "f" then some (strBytes "file2") else none) none
        ⟨[Input.ToolTag "some tool_tag", Input.File "f"]⟩).map
      (fun b => b.hash_details.map (fun p => inputTag p.1)) =
    some ["File", "ToolTag"] := by
  decide

/-- C3 counterexample: the claim states that an absent `File` output gets the
digest of the empty string (the hash primitive applied to zero bytes) as its
per-item digest.  In fact the code records the literal empty string `""`,
which differs from `string_hash ""`. -/
theorem claim_C3_counterexample :
    (OutputSet.hash_bundle (fun _ => none) none
        ⟨[Output.File ⟨"out", false, 420⟩]⟩).map
      (fun b => b.hash_details.map Prod.snd) = some [""] ∧
    ("" : String) ≠ string_hash "" := by
  constructor
  · decide
  · decide

/-- C3 (amended): for every `Output::File` with `present = false`,
`OutputSet::hash_bundle` records the literal empty string as its per-item
digest, without reading any file (the digest is the same for every file
system). -/
theorem claim_C3_amended_thm (fs : FS) (root : Option String) (s : OutputSet)
    (b : OutputHashBundle) (hb : OutputSet.hash_bundle fs root s = some b)
    (fo : FileOutput) (d : String)
    (hm : (Output.File fo, d) ∈ b.hash_details) (hp : fo.present = false) :
    d = "" :=
  absent_file_digest_empty fs root s b hb fo d hm hp

/-- C3 witness: a concrete absent output file in a concrete bundle, whose
recorded digest the amended theorem forces to `""`. -/
theorem claim_C3_witness :
    OutputSet.hash_bundle (fun _ => none) none ⟨[Output.File ⟨"miss", false, 420⟩]⟩ =
      some ⟨"50009ce1da4d15e1c4a04024df691eed5f0d598e2c4c67092f205366d0adf99e",
            [(Output.File ⟨"miss", false, 420⟩, "")]⟩ ∧
    ("" : String) = "" :=
  ⟨by decide,
   claim_C3_amended_thm (fun _ => none) none ⟨[Output.File ⟨"miss", false, 420⟩]⟩
     ⟨"50009ce1da4d15e1c4a04024df691eed5f0d598e2c4c67092f205366d0adf99e",
      [(Output.File ⟨"miss", false, 420⟩, "")]⟩ (by decide)
     ⟨"miss", false, 420⟩ "" (by simp) rfl⟩

/-- C4: a `FileOutput` with `present = false` never receives the same
per-item digest in a bundle produced by `hash_bundle` as a `FileOutput` with
`present = true` whose file exists: the former's digest is `""` and the
latter's is a 64-character hex digest. -/
theorem claim_C4_presence_distinction
    (fs fs' : FS) (root root' : Option String) (s s' : OutputSet)
    (b b' : OutputHashBundle)
    (hb : OutputSet.hash_bundle fs root s = some b)
    (hb' : OutputSet.hash_bundle fs' root' s' = some b')
    (fo fo' : FileOutput) (d d' : String)
    (hm : (Output.File fo, d) ∈ b.hash_details)
    (hm' : (Output.File fo', d') ∈ b'.hash_details)
    (hp : fo.present = false) (hp' : fo'.present = true) : d ≠ d' := by
  have h1 : d = "" := absent_file_digest_empty fs root s b hb fo d hm hp
  have h2 : d'.length = 64 := present_file_digest_length fs' root' s' b' hb' fo' d' hm' hp'
  intro he
  rw [← he] at h2
  rw [h1] at h2
  exact absurd h2 (by decide)

/-- C4 witness: a concrete absent-file bundle next to a concrete bundle of a
present empty file; their per-item digests differ. -/
theorem claim_C4_witness :
    OutputSet.hash_bundle (fun _ => none) none ⟨[Output.File ⟨"gone", false, 420⟩]⟩ =
      some ⟨"50009ce1da4d15e1c4a04024df691eed5f0d598e2c4c67092f205366d0adf99e",
            [(Output.File ⟨"gone", false, 420⟩, "")]⟩ ∧
    OutputSet.hash_bundle (fun p => if p == "empty" then some [] else none) none
        ⟨[Output.File ⟨"empty", true, 420⟩]⟩ =
      some ⟨"3502b573834a34f50fd918b536340c9bd0af41e5d20ff1638d3f3cb77b5274c2",
            [(Output.File ⟨"empty", true, 420⟩,
              "e3b0c44298fc1c149afbf4c8996fb92427ae41e4649b934ca495991b7852b855")]⟩ ∧
    ("" : String) ≠ "e3b0c44298fc1c149afbf4c8996fb92427ae41e4649b934ca495991b7852b855" :=
  ⟨by decide, by decide,
   claim_C4_presence_distinction (fun _ => none)
     (fun p => if p == "empty" then some [] else none) none none
     ⟨[Output.File ⟨"gone", false, 420⟩]⟩ ⟨[Output.File ⟨"empty", true, 420⟩]⟩
     ⟨"50009ce1da4d15e1c4a04024df691eed5f0d598e2c4c67092f205366d0adf99e",
      [(Output.File ⟨"gone", false, 420⟩, "")]⟩
     ⟨"3502b573834a34f50fd918b536340c9bd0af41e5d20ff1638d3f3cb77b5274c2",
      [(Output.File ⟨"empty", true, 420⟩,
        "e3b0c44298fc1c149afbf4c8996fb92427ae41e4649b934ca495991b7852b855")]⟩
     (by decide) (by decide)
     ⟨"gone", false, 420⟩ ⟨"empty", true, 420⟩
     "" "e3b0c44298fc1c149afbf4c8996fb92427ae41e4649b934ca495991b7852b855"
     (by simp) (by simp) rfl rfl⟩

/-- C5: for every `InputSet`, the top-level bundle hash is the digest of the
concatenation, in the sorted `hash_details` order, of each entry's tag label
and per-item digest; filenames and tag text never enter the top-level hash
directly, so inputs that agree labelwise and per-item-digest-wise (in
particular `File` inputs with identical content but different paths)
contribute identically to the top-level hash. -/
theorem claim_C5_bundle_hash_formula (fs : FS) (root : Option String)
    (s : InputSet) (b : InputHashBundle)
    (hb : InputSet.hash_bundle fs root s = some b) :
    b.hash = bytes_hash (b.hash_details.flatMap
        (fun p => strBytes (inputTag p.1) ++ strBytes p.2)) ∧
    (∀ (fs' : FS) (root' : Option String) (s' : InputSet) (b' : InputHashBundle),
      InputSet.hash_bundle fs' root' s' = some b' →
      List.Forall₂ (fun i i' => inputTag i = inputTag i' ∧
        input_item_hash fs root i = input_item_hash fs' root' i') s.inputs s'.inputs →
      b'.hash = b.hash) := by
  unfold InputSet.hash_bundle at hb
  cases hm : collectDetails (input_item_hash fs root) s.inputs with
  | none => rw [hm] at hb; exact absurd hb (by simp)
  | some details =>
    rw [hm] at hb
    simp only [Option.some.injEq] at hb
    subst hb
    constructor
    · show bundle_hash ((rustSortBy inputCmp details).map (fun p => (inputTag p.1, p.2))) =
        bytes_hash ((rustSortBy inputCmp details).flatMap
          (fun p => strBytes (inputTag p.1) ++ strBytes p.2))
      unfold bundle_hash bytes_hash
      rw [flatMap_map_pair]
    · intro fs' root' s' b' hb' hrel
      unfold InputSet.hash_bundle at hb'
      cases hm' : collectDetails (input_item_hash fs' root') s'.inputs with
      | none => rw [hm'] at hb'; exact absurd hb' (by simp)
      | some details' =>
        rw [hm'] at hb'
        simp only [Option.some.injEq] at hb'
        subst hb'
        have hmaps : details.map labelOf = details'.map labelOf := by
          have hcd := collectDetails_map_labelOf fs fs' root root'
            s.inputs s'.inputs hrel
          rw [hm, hm'] at hcd
          simpa using hcd
        have hsorted : (rustSortBy inputCmp details).map labelOf =
            (rustSortBy inputCmp details').map labelOf := by
          rw [inputCmp_eq_proj]
          exact rustSortBy_map_proj labelOf labelCmp details details' hmaps
        show bundle_hash ((rustSortBy inputCmp details').map labelOf) =
          bundle_hash ((rustSortBy inputCmp details).map labelOf)
        rw [hsorted]

/-- C5 witness: two concrete single-file sets whose files live at different
paths but hold the same content receive the same top-level hash, and the hash
satisfies the concatenation formula on a concrete bundle. -/
theorem claim_C5_witness :
    InputSet.hash_bundle
        (fun p => if p == "p1" then some [97] else if p == "p2" then some [97] else none)
        none ⟨[Input.File "p1"]⟩ =
      some ⟨"e85a61d95b8002adb348fe927fbf17e7fca87c1020145dfda5f1319cd1e195b7",
            [(Input.File "p1",
              "ca978112ca1bbdcafac231b39a23dc4da786eff8147c4e72b9807785afee48bb")]⟩ ∧
    InputSet.hash_bundle
        (fun p => if p == "p1" then some [97] else if p == "p2" then some [97] else none)
        none ⟨[Input.File "p2"]⟩ =
      some ⟨"e85a61d95b8002adb348fe927fbf17e7fca87c1020145dfda5f1319cd1e195b7",
            [(Input.File "p2",
              "ca978112ca1bbdcafac231b39a23dc4da786eff8147c4e72b9807785afee48bb")]⟩ ∧
    ("e85a61d95b8002adb348fe927fbf17e7fca87c1020145dfda5f1319cd1e195b7" : String) =
      "e85a61d95b8002adb348fe927fbf17e7fca87c1020145dfda5f1319cd1e195b7" := by
  refine ⟨by decide, by decide, ?_⟩
  exact (claim_C5_bundle_hash_formula
    (fun p => if p == "p1" then some [97] else if p == "p2" then some [97] else none)
    none ⟨[Input.File "p1"]⟩
    ⟨"e85a61d95b8002adb348fe927fbf17e7fca87c1020145dfda5f1319cd1e195b7",
     [(Input.File "p1",
       "ca978112ca1bbdcafac231b39a23dc4da786eff8147c4e72b9807785afee48bb")]⟩
    (by decide)).2
    (fun p => if p == "p1" then some [97] else if p == "p2" then some [97] else none)
    none ⟨[Input.File "p2"]⟩
    ⟨"e85a61d95b8002adb348fe927fbf17e7fca87c1020145dfda5f1319cd1e195b7",
     [(Input.File "p2",
       "ca978112ca1bbdcafac231b39a23dc4da786eff8147c4e72b9807785afee48bb")]⟩
    (by decide)
    (List.Forall₂.cons ⟨rfl, by decide⟩ List.Forall₂.nil)

/-- C6: `result_code` returns the inserted exit code for every bundle whose
`hash_details` contains an `ExitCode` entry (whatever its position and
whatever surrounds it, provided all `ExitCode` entries agree on the code),
and `none` for every bundle containing no `ExitCode` entry. -/
theorem claim_C6_result_code (b : OutputHashBundle) :
    (∀ (c : Int) (hs : String), (Output.ExitCode c, hs) ∈ b.hash_details →
      (∀ (c' : Int) (hs' : String), (Output.ExitCode c', hs') ∈ b.hash_details → c' = c) →
      b.result_code = some c) ∧
    ((∀ p ∈ b.hash_details, ∀ c : Int, p.1 ≠ Output.ExitCode c) →
      b.result_code = none) :=
  ⟨fun c hs hm hu => resultCodeGo_some b.hash_details c hs hm hu,
   fun hno => resultCodeGo_none b.hash_details hno⟩

/-- C6 witness: on a concrete bundle with the exit code in the middle the
accessor returns it, and on a concrete bundle without one it returns none. -/
theorem claim_C6_witness :
    OutputHashBundle.result_code
        ⟨"h1", [(Output.Stdout [], "x"), (Output.ExitCode 7, "y"),
                (Output.File ⟨"f", true, 420⟩, "z")]⟩ = some 7 ∧
    OutputHashBundle.result_code
        ⟨"h2", [(Output.Stdout [], "x"), (Output.Stderr [1], "w")]⟩ = none := by
  constructor
  · refine (claim_C6_result_code
      ⟨"h1", [(Output.Stdout [], "x"), (Output.ExitCode 7, "y"),
              (Output.File ⟨"f", true, 420⟩, "z")]⟩).1 7 "y" (by simp) ?_
    intro c' hs' hmem
    simp only [List.mem_cons, List.mem_singleton, Prod.mk.injEq] at hmem
    rcases hmem with ⟨h1, _⟩ | ⟨h1, _⟩ | ⟨h1, _⟩ | h1
    · exact absurd h1 (by simp)
    · exact (Output.ExitCode.injEq c' 7).mp h1
    · exact absurd h1 (by simp)
    · exact absurd h1 (by simp)
  · refine (claim_C6_result_code
      ⟨"h2", [(Output.Stdout [], "x"), (Output.Stderr [1], "w")]⟩).2 ?_
    intro p hp c
    simp only [List.mem_cons, List.mem_singleton] at hp
    rcases hp with rfl | rfl | h1
    · simp
    · simp
    · exact absurd h1 (by simp)

/-- C7: the empty `InputSet` always hashes to the digest of the empty byte
sequence, which is the fixed SHA-256 value of zero bytes. -/
theorem claim_C7_empty_set (fs : FS) (root : Option String) :
    InputSet.hash fs root ⟨[]⟩ = some (bytes_hash []) ∧
    bytes_hash [] =
      "e3b0c44298fc1c149afbf4c8996fb92427ae41e4649b934ca495991b7852b855" := by
  constructor
  · rfl
  · decide

/-- C8 counterexample: the claim states the command-line value wins for a
scalar setting given on both the command line and in the environment-variable
argument string.  In fact `Config::new` applies the command-line matches first
and the `CAPSULE_ARGS` matches second, so the environment value overwrites
the command-line one: with `-c cli` on the command line and `-c envv` in the
environment, the resulting capsule identifier is `envv`, not `cli`. -/
theorem claim_C8_counterexample :
    Config.new none none ⟨some "cli", [], [], [], false, false⟩
        ⟨some "envv", [], [], [], false, false⟩ =
      Except.ok { Config.defaultConfig with capsule_id := some "envv" } ∧
    some "envv" ≠ some "cli" := by
  constructor
  · rfl
  · decide

/-- C8 (amended): configuration assembly applies the per-user file, then the
argument sources; for a scalar setting such as the capsule identifier, the
environment-variable argument string wins over the command line, because the
command-line matches are applied first and the environment matches second:
whenever the environment source supplies a capsule identifier, the resulting
configuration carries exactly that identifier. -/
theorem claim_C8_amended_thm (homeFile : Option (Option Config))
    (dirFile : Option (Option (List (String × Config))))
    (cmd envArgs : ArgMatches) (v : String) (c : Config)
    (hv : envArgs.capsule_id = some v)
    (hc : Config.new homeFile dirFile cmd envArgs = Except.ok c) :
    c.capsule_id = some v := by
  have henv : ∀ c0 : Config,
      applyCapsuleId c0 envArgs = { c0 with capsule_id := some v } := by
    intro c0
    unfold applyCapsuleId
    rw [hv]
  rcases dirFile with _ | df
  · simp only [Config.new] at hc
    rw [henv] at hc
    rw [resolveCapsuleId_of_some _ v _ rfl] at hc
    simp only [Except.map, Except.ok.injEq] at hc
    subst hc
    rfl
  · rcases df with _ | m
    · simp only [Config.new] at hc
      exact absurd hc (by simp)
    · simp only [Config.new] at hc
      rw [henv] at hc
      rw [resolveCapsuleId_of_some _ v _ rfl] at hc
      simp only [Except.map, Except.ok.injEq] at hc
      subst hc
      rfl

/-- C8 witness: the amended theorem at a concrete input where the environment
source supplies the capsule identifier `envv`. -/
theorem claim_C8_witness :
    (⟨some "envv", [], [], [], false, false⟩ : ArgMatches).capsule_id = some "envv" ∧
    Config.new none none ⟨some "cliv", [], [], [], false, false⟩
        ⟨some "envv", [], [], [], false, false⟩ =
      Except.ok { Config.defaultConfig with capsule_id := some "envv" } ∧
    ({ Config.defaultConfig with capsule_id := some "envv" } : Config).capsule_id =
      some "envv" :=
  ⟨rfl, rfl,
   claim_C8_amended_thm none none ⟨some "cliv", [], [], [], false, false⟩
     ⟨some "envv", [], [], [], false, false⟩ "envv"
     { Config.defaultConfig with capsule_id := some "envv" } rfl rfl⟩

/-- C9 counterexample: the claim states that every present-but-unparsable
structured config file (per-user or per-directory) is fatal at startup.  In
fact a present-but-unparsable per-user `~/.capsules.toml` is silently ignored
and loading succeeds with defaults: here it returns `Ok` with the default
configuration (plus the command-line capsule identifier) instead of an
error. -/
theorem claim_C9_counterexample :
    Config.new (some none) none ⟨some "x", [], [], [], false, false⟩
        ⟨none, [], [], [], false, false⟩ =
      Except.ok { Config.defaultConfig with capsule_id := some "x" } := rfl

/-- C9 (amended): configuration loading distinguishes absence from
malformedness only for the per-directory file: a present-but-unparsable
`Capsules.toml` is fatal at startup with a descriptive error, while a
present-but-unparsable per-user file behaves exactly like an absent one
(falling back to defaults); an absent pair of files falls back to defaults
and succeeds, as on a concrete command line. -/
theorem claim_C9_amended_thm :
    (∀ (dirFile : Option (Option (List (String × Config)))) (cmd envArgs : ArgMatches),
      Config.new (some none) dirFile cmd envArgs = Config.new none dirFile cmd envArgs) ∧
    (∀ (homeFile : Option (Option Config)) (cmd envArgs : ArgMatches),
      Config.new homeFile (some none) cmd envArgs =
        Except.error "Could not parse Capsules.toml") ∧
    Config.new none none ⟨some "y", [], [], [], false, false⟩
        ⟨none, [], [], [], false, false⟩ =
      Except.ok { Config.defaultConfig with capsule_id := some "y" } :=
  ⟨fun _ _ _ => rfl, fun _ _ _ => rfl, rfl⟩
